import Mathlib

/-
Verification of the device-slot lifecycle and shutdown-orchestration
subsystem of the ckb-next daemon, as implemented in src/daemon/main.c.

The embedding below models the functions of main.c over plain Lean data:
machine integers become Int with C truncated division/remainder
(Int.tdiv / Int.tmod), C strings become lists of byte values, and the
side-effecting shutdown/startup code becomes explicit event traces and
state-passing functions.  Functions of the daemon that live outside
main.c (revertusb, closeusb, rmdevpath, the socketpair reader in usb.c,
the DEV_MAX constant of device.h) are modelled from the specification's
description of their contract; each such definition says so in its doc
comment.
-/

namespace CkbNext

/-! ## timespec_add (main.c lines 21-25) -/

/-- Model of `struct timespec`: a seconds / nanoseconds pair.  Both
fields are C integer types, modelled as unbounded Int (the claims about
`timespec_add` are conditioned on the absence of overflow). -/
structure Timespec where
  tv_sec : Int
  tv_nsec : Int
deriving DecidableEq, Repr

/-- Embedding of `timespec_add` from main.c:
`nanoseconds += timespec->tv_nsec;`
`timespec->tv_sec += nanoseconds / 1000000000;`
`timespec->tv_nsec = nanoseconds % 1000000000;`
C99 `/` and `%` on signed integers truncate toward zero, which is
Int.tdiv / Int.tmod. -/
def timespec_add (t : Timespec) (nanoseconds : Int) : Timespec :=
  let ns := nanoseconds + t.tv_nsec
  { tv_sec := t.tv_sec + ns.tdiv 1000000000
    tv_nsec := ns.tmod 1000000000 }

/-! ## Device slots and the shutdown trace (quit, main.c lines 32-54) -/

/-- Modelled from the spec: the per-slot device status enum of device.h
(not under src/).  The spec's state machine has exactly the states
EMPTY, CONNECTING, CONNECTED; quit tests for DEV_STATUS_CONNECTING and
DEV_STATUS_CONNECTED. -/
inductive DevStatus
  | empty
  | connecting
  | connected
deriving DecidableEq, Repr

/-- The guard used by both loops of quit:
`status == DEV_STATUS_CONNECTING || status == DEV_STATUS_CONNECTED`. -/
def devActive (s : DevStatus) : Bool :=
  s = DevStatus.connecting || s = DevStatus.connected

/-- Observable operations issued by the shutdown code of main.c.
`revert i` is the call `revertusb(keyboard + i)`, `close i` the call
`closeusb(keyboard + i)`, `removeNode i` the removal of slot i's virtual
device node (`rmdevpath`; per the spec, releasing the node is part of the
close operation), `logClosingRoot` the `ckb_info("Closing root
controller")` line, and `usbkill` the final global USB teardown. -/
inductive Event
  | setResetStop
  | lock (i : Nat)
  | unlock (i : Nat)
  | revert (i : Nat)
  | close (i : Nat)
  | removeNode (i : Nat)
  | logClosingRoot
  | usbkill
deriving DecidableEq, Repr

/-- First loop of quit (lines 36-41): for each slot index, lock, revert
if the slot is CONNECTING or CONNECTED, unlock.  Modelled from the spec:
`revertusb` (usb.c, not under src/) issues the revert-to-stock-mode
command to the hardware and does not change the slot's status. -/
def revertPass (st : Nat → DevStatus) : List Nat → List Event
  | [] => []
  | i :: rest =>
      ([Event.lock i]
        ++ (if devActive (st i) then [Event.revert i] else [])
        ++ [Event.unlock i])
        ++ revertPass st rest

/-- Second loop of quit (lines 44-49): for each slot index, lock, close
if the slot is CONNECTING or CONNECTED, unlock.  Modelled from the spec:
`closeusb` (not under src/) closes the USB handle, releases the slot's
virtual device node and transitions the slot to EMPTY.  Returns the
emitted events together with the slot table after the pass. -/
def closePass (st : Nat → DevStatus) : List Nat → List Event × (Nat → DevStatus)
  | [] => ([], st)
  | i :: rest =>
      if devActive (st i) then
        let st2 : Nat → DevStatus := fun j => if j = i then DevStatus.empty else st j
        let r := closePass st2 rest
        ([Event.lock i, Event.close i, Event.removeNode i, Event.unlock i] ++ r.1, r.2)
      else
        let r := closePass st rest
        ([Event.lock i, Event.unlock i] ++ r.1, r.2)

/-- The slot indices visited by both loops of quit: `for(int i = 1; i <
DEV_MAX; i++)`.  DEV_MAX comes from device.h (not under src/) and is kept
as a parameter. -/
def slotRange (devMax : Nat) : List Nat := List.range' 1 (devMax - 1)

/-- The ordered trace of operations issued by one run of quit
(main.c lines 32-54): set reset_stop, revert pass, close pass, log,
remove the root controller's node (`rmdevpath(keyboard)`, slot 0),
`usbkill()`. -/
def quitTrace (devMax : Nat) (st : Nat → DevStatus) : List Event :=
  Event.setResetStop ::
    (revertPass st (slotRange devMax)
      ++ (closePass st (slotRange devMax)).1
      ++ [Event.logClosingRoot, Event.removeNode 0, Event.usbkill])

/-- The slot table after one run of quit. -/
def quitFinal (devMax : Nat) (st : Nat → DevStatus) : Nat → DevStatus :=
  (closePass st (slotRange devMax)).2

/-- Effect of one traced event on the process-wide `reset_stop` flag.
The only write to reset_stop in main.c is `reset_stop = 1` at the top of
quit; no operation of the core clears it. -/
def resetStopEffect (b : Bool) (e : Event) : Bool :=
  match e with
  | Event.setResetStop => true
  | _ => b

/-- Value of the reset_stop flag after a prefix of a trace, starting
from a given initial value. -/
def resetStopAfter (b : Bool) (tr : List Event) : Bool :=
  tr.foldl resetStopEffect b

/-- The slot index an event operates on, if any. -/
def Event.slotOf : Event → Option Nat
  | Event.lock i => some i
  | Event.unlock i => some i
  | Event.revert i => some i
  | Event.close i => some i
  | Event.removeNode i => some i
  | _ => none

/-- Whether an event is a revert operation. -/
def Event.isRevert : Event → Bool
  | Event.revert _ => true
  | _ => false

/-- Whether an event is a close operation. -/
def Event.isCloseOp : Event → Bool
  | Event.close _ => true
  | _ => false

/-! ### Helper lemmas about the two passes of quit -/

lemma mem_revertPass {st : Nat → DevStatus} :
    ∀ {l : List Nat} {e : Event}, e ∈ revertPass st l →
      ∃ j, j ∈ l ∧ (e = Event.lock j ∨ e = Event.unlock j ∨
        (e = Event.revert j ∧ devActive (st j) = true)) := by
  intro l
  induction l with
  | nil => intro e he; simp [revertPass] at he
  | cons i rest ih =>
    intro e he
    by_cases hA : devActive (st i)
    · simp [revertPass, hA] at he
      rcases he with h | h | h | h
      · exact ⟨i, List.mem_cons_self i rest, Or.inl h⟩
      · exact ⟨i, List.mem_cons_self i rest, Or.inr (Or.inr ⟨h, hA⟩)⟩
      · exact ⟨i, List.mem_cons_self i rest, Or.inr (Or.inl h)⟩
      · obtain ⟨j, hj, hcase⟩ := ih h
        exact ⟨j, List.mem_cons_of_mem i hj, hcase⟩
    · simp [revertPass, hA] at he
      rcases he with h | h | h
      · exact ⟨i, List.mem_cons_self i rest, Or.inl h⟩
      · exact ⟨i, List.mem_cons_self i rest, Or.inr (Or.inl h)⟩
      · obtain ⟨j, hj, hcase⟩ := ih h
        exact ⟨j, List.mem_cons_of_mem i hj, hcase⟩

lemma closePass_snd_active_step {st : Nat → DevStatus} {i : Nat} (rest : List Nat)
    (hA : devActive (st i) = true) (j : Nat) :
    (closePass st (i :: rest)).2 j
      = (closePass (fun k => if k = i then DevStatus.empty else st k) rest).2 j := by
  simp [closePass, hA]

lemma closePass_snd_inactive_step {st : Nat → DevStatus} {i : Nat} (rest : List Nat)
    (hA : ¬ devActive (st i) = true) (j : Nat) :
    (closePass st (i :: rest)).2 j = (closePass st rest).2 j := by
  simp [closePass, hA]

lemma closePass_snd_of_not_mem :
    ∀ {l : List Nat} {st : Nat → DevStatus} {j : Nat}, j ∉ l →
      (closePass st l).2 j = st j := by
  intro l
  induction l with
  | nil => intro st j _; rfl
  | cons i rest ih =>
    intro st j hj
    have hji : j ≠ i := fun h => hj (h ▸ List.mem_cons_self i rest)
    have hjr : j ∉ rest := fun h => hj (List.mem_cons_of_mem i h)
    by_cases hA : devActive (st i)
    · rw [closePass_snd_active_step rest hA j, ih hjr]
      simp [hji]
    · rw [closePass_snd_inactive_step rest hA j, ih hjr]

lemma mem_closePass :
    ∀ {l : List Nat}, l.Nodup → ∀ {st : Nat → DevStatus} {e : Event},
      e ∈ (closePass st l).1 →
      ∃ j, j ∈ l ∧ (e = Event.lock j ∨ e = Event.unlock j ∨
        ((e = Event.close j ∨ e = Event.removeNode j) ∧ devActive (st j) = true)) := by
  intro l
  induction l with
  | nil => intro _ st e he; simp [closePass] at he
  | cons i rest ih =>
    intro hnd st e he
    have hir : i ∉ rest := (List.nodup_cons.mp hnd).1
    have hndr : rest.Nodup := (List.nodup_cons.mp hnd).2
    by_cases hA : devActive (st i)
    · simp [closePass, hA] at he
      rcases he with h | h | h | h | h
      · exact ⟨i, List.mem_cons_self i rest, Or.inl h⟩
      · exact ⟨i, List.mem_cons_self i rest, Or.inr (Or.inr ⟨Or.inl h, hA⟩)⟩
      · exact ⟨i, List.mem_cons_self i rest, Or.inr (Or.inr ⟨Or.inr h, hA⟩)⟩
      · exact ⟨i, List.mem_cons_self i rest, Or.inr (Or.inl h)⟩
      · obtain ⟨j, hj, hcase⟩ := ih hndr h
        have hji : j ≠ i := fun hh => hir (hh ▸ hj)
        refine ⟨j, List.mem_cons_of_mem i hj, ?_⟩
        simpa [hji] using hcase
    · simp [closePass, hA] at he
      rcases he with h | h | h
      · exact ⟨i, List.mem_cons_self i rest, Or.inl h⟩
      · exact ⟨i, List.mem_cons_self i rest, Or.inr (Or.inl h)⟩
      · obtain ⟨j, hj, hcase⟩ := ih hndr h
        exact ⟨j, List.mem_cons_of_mem i hj, hcase⟩

lemma closePass_snd_inactive :
    ∀ {l : List Nat}, l.Nodup → ∀ {st : Nat → DevStatus} {j : Nat},
      devActive (st j) = false → (closePass st l).2 j = st j := by
  intro l
  induction l with
  | nil => intro _ st j _; rfl
  | cons i rest ih =>
    intro hnd st j hj
    have hir : i ∉ rest := (List.nodup_cons.mp hnd).1
    have hndr : rest.Nodup := (List.nodup_cons.mp hnd).2
    by_cases hji : j = i
    · subst hji
      have hA : ¬ devActive (st j) = true := by simp [hj]
      rw [closePass_snd_inactive_step rest hA j]
      exact closePass_snd_of_not_mem hir
    · by_cases hA : devActive (st i)
      · rw [closePass_snd_active_step rest hA j]
        have h2 : devActive ((fun k => if k = i then DevStatus.empty else st k) j) = false := by
          simp [hji, hj]
        rw [ih hndr h2]
        simp [hji]
      · rw [closePass_snd_inactive_step rest hA j]
        exact ih hndr hj

lemma closePass_snd_active_mem :
    ∀ {l : List Nat}, l.Nodup → ∀ {st : Nat → DevStatus} {j : Nat},
      j ∈ l → devActive (st j) = true → (closePass st l).2 j = DevStatus.empty := by
  intro l
  induction l with
  | nil => intro _ st j hj _; simp at hj
  | cons i rest ih =>
    intro hnd st j hj hA
    have hir : i ∉ rest := (List.nodup_cons.mp hnd).1
    have hndr : rest.Nodup := (List.nodup_cons.mp hnd).2
    rcases List.mem_cons.mp hj with hji | hjr
    · subst hji
      rw [closePass_snd_active_step rest hA j, closePass_snd_of_not_mem hir]
      simp
    · have hji : j ≠ i := fun hh => hir (hh ▸ hjr)
      by_cases hAi : devActive (st i)
      · rw [closePass_snd_active_step rest hAi j]
        have hA2 : devActive ((fun k => if k = i then DevStatus.empty else st k) j) = true := by
          simp [hji, hA]
        exact ih hndr hjr hA2
      · rw [closePass_snd_inactive_step rest hAi j]
        exact ih hndr hjr hA

lemma slotRange_nodup (devMax : Nat) : (slotRange devMax).Nodup :=
  List.nodup_range' 1 (devMax - 1)

lemma resetStopAfter_true : ∀ (l : List Event), resetStopAfter true l = true := by
  intro l
  induction l with
  | nil => rfl
  | cons e rest ih =>
    have h : resetStopEffect true e = true := by cases e <;> rfl
    simp only [resetStopAfter, List.foldl_cons, h]
    exact ih

/-- A sample slot table used to instantiate the shutdown theorems:
slots 1 and 2 are CONNECTED, every other slot is EMPTY. -/
def sampleSt : Nat → DevStatus :=
  fun j => if 1 ≤ j ∧ j ≤ 2 then DevStatus.connected else DevStatus.empty

/-- C1: during a shutdown run of quit, the revert pass is completed over
all slots before the close pass begins: every revert operation in the
trace of quit occurs at a strictly earlier position than every close
operation, so no close is ever issued while any revert is still pending
in the same run. -/
theorem quit_revert_precedes_close (devMax : Nat) (st : Nat → DevStatus)
    (p q a b : Nat)
    (hp : (quitTrace devMax st)[p]? = some (Event.revert a))
    (hq : (quitTrace devMax st)[q]? = some (Event.close b)) :
    p < q := by
  set P : List Event := Event.setResetStop :: revertPass st (slotRange devMax) with hP
  set S : List Event := (closePass st (slotRange devMax)).1
      ++ [Event.logClosingRoot, Event.removeNode 0, Event.usbkill] with hS
  have hsplit : quitTrace devMax st = P ++ S := by
    simp [quitTrace, hP, hS]
  have hSno : ∀ e ∈ S, e.isRevert = false := by
    intro e he
    rcases List.mem_append.mp he with h | h
    · obtain ⟨j, _, hc⟩ := mem_closePass (slotRange_nodup devMax) h
      rcases hc with h' | h' | ⟨h' | h', _⟩ <;> subst h' <;> rfl
    · simp at h
      rcases h with h' | h' | h' <;> subst h' <;> rfl
  have hPno : ∀ e ∈ P, e.isCloseOp = false := by
    intro e he
    rcases List.mem_cons.mp he with h | h
    · subst h; rfl
    · obtain ⟨j, _, hc⟩ := mem_revertPass h
      rcases hc with h' | h' | ⟨h', _⟩ <;> subst h' <;> rfl
  have hpP : p < P.length := by
    by_contra hnot
    push_neg at hnot
    rw [hsplit, List.getElem?_append_right hnot] at hp
    have hmem := List.getElem?_mem hp
    have := hSno _ hmem
    simp [Event.isRevert] at this
  have hqS : P.length ≤ q := by
    by_contra hnot
    push_neg at hnot
    rw [hsplit, List.getElem?_append_left hnot] at hq
    have hmem := List.getElem?_mem hq
    have := hPno _ hmem
    simp [Event.isCloseOp] at this
  omega

/-- Witness for C1 at devMax = 3 with slots 1 and 2 CONNECTED: the
revert on slot 1 sits at position 2 of the trace, the close on slot 1 at
position 8, and the theorem yields 2 < 8. -/
theorem quit_revert_precedes_close_witness :
    (quitTrace 3 sampleSt)[2]? = some (Event.revert 1) ∧
    (quitTrace 3 sampleSt)[8]? = some (Event.close 1) ∧ 2 < 8 :=
  ⟨by decide, by decide,
    quit_revert_precedes_close 3 sampleSt 2 8 1 1 (by decide) (by decide)⟩

/-- C2: the very first action of quit is setting the process-wide
reset_stop flag; every revert or close operation occurs strictly later,
and the flag stays true after every nonempty prefix of the run (no
operation of the core ever clears it). -/
theorem quit_sets_reset_stop_first (devMax : Nat) (st : Nat → DevStatus) :
    (quitTrace devMax st).head? = some Event.setResetStop ∧
    (∀ p e, (quitTrace devMax st)[p]? = some e →
      (e.isRevert = true ∨ e.isCloseOp = true) → 0 < p) ∧
    (∀ k, 0 < k → resetStopAfter false ((quitTrace devMax st).take k) = true) := by
  refine ⟨rfl, ?_, ?_⟩
  · intro p e hp he
    cases p with
    | zero =>
      rw [quitTrace] at hp
      simp only [List.getElem?_cons_zero, Option.some_inj] at hp
      subst hp
      rcases he with h | h <;> simp [Event.isRevert, Event.isCloseOp] at h
    | succ n => omega
  · intro k hk
    cases k with
    | zero => omega
    | succ n =>
      rw [quitTrace, List.take_succ_cons]
      exact resetStopAfter_true _

/-- Witness for C2 at devMax = 3 with slots 1 and 2 CONNECTED. -/
theorem quit_sets_reset_stop_first_witness :
    resetStopAfter false ((quitTrace 3 sampleSt).take 5) = true ∧ 0 < 2 :=
  ⟨(quit_sets_reset_stop_first 3 sampleSt).2.2 5 (by decide),
    (quit_sets_reset_stop_first 3 sampleSt).2.1 2 (Event.revert 1) (by decide)
      (Or.inl rfl)⟩

/-- C3: in every shutdown run the root controller's node (slot 0) is
removed by the last node-removal of the run, after both passes are
complete; every slot 1..devMax-1 that was CONNECTING or CONNECTED has
reached EMPTY by the end of the run. -/
theorem quit_root_node_removed_last (devMax : Nat) (st : Nat → DevStatus) :
    ∃ q : Nat, (quitTrace devMax st)[q]? = some (Event.removeNode 0) ∧
      (∀ p j, (quitTrace devMax st)[p]? = some (Event.removeNode j) → p ≤ q) ∧
      (∀ i, 1 ≤ i → i < devMax → devActive (st i) = true →
        quitFinal devMax st i = DevStatus.empty) := by
  set P : List Event := Event.setResetStop :: (revertPass st (slotRange devMax)
      ++ (closePass st (slotRange devMax)).1) with hP
  set T : List Event := [Event.logClosingRoot, Event.removeNode 0, Event.usbkill] with hT
  have hsplit : quitTrace devMax st = P ++ T := by
    simp [quitTrace, hP, hT]
  refine ⟨P.length + 1, ?_, ?_, ?_⟩
  · rw [hsplit, List.getElem?_append_right (Nat.le_add_right P.length 1)]
    have h1 : P.length + 1 - P.length = 1 := by omega
    rw [h1]
    rfl
  · intro p j hp
    have hlen : (quitTrace devMax st).length = P.length + 3 := by
      rw [hsplit]
      simp [hT]
    have hplt : p < P.length + 3 := by
      have := (List.getElem?_eq_some.mp hp).1
      omega
    by_contra hgt
    push_neg at hgt
    have hp2 : p = P.length + 2 := by omega
    subst hp2
    rw [hsplit, List.getElem?_append_right (Nat.le_add_right P.length 2)] at hp
    have h2 : P.length + 2 - P.length = 2 := by omega
    rw [h2] at hp
    simp [hT] at hp
  · intro i hi1 hi2 hA
    have hi : i ∈ slotRange devMax := by
      rw [slotRange, List.mem_range'_1]
      omega
    exact closePass_snd_active_mem (slotRange_nodup devMax) hi hA

/-- Witness for C3 at devMax = 3 with slots 1 and 2 CONNECTED: both
slots reach EMPTY. -/
theorem quit_root_node_removed_last_witness :
    quitFinal 3 sampleSt 2 = DevStatus.empty := by
  obtain ⟨q, _, _, hfin⟩ := quit_root_node_removed_last 3 sampleSt
  exact hfin 2 (by decide) (by decide) (by decide)

/-- C7: a slot in 1..devMax-1 whose status is EMPTY when quit runs
receives neither a revert nor a close nor a node removal: the only
operations issued on it are its lock acquisition and release, and its
state is unchanged by the run. -/
theorem quit_empty_slot_noop (devMax : Nat) (st : Nat → DevStatus) (i : Nat)
    (h1 : 1 ≤ i) (h2 : i < devMax) (hEmpty : st i = DevStatus.empty) :
    (∀ e ∈ quitTrace devMax st, Event.slotOf e = some i →
      e = Event.lock i ∨ e = Event.unlock i) ∧
    quitFinal devMax st i = st i := by
  have hInact : devActive (st i) = false := by rw [hEmpty]; rfl
  constructor
  · intro e he hslot
    rw [quitTrace] at he
    rcases List.mem_cons.mp he with h | h
    · subst h
      simp [Event.slotOf] at hslot
    rcases List.mem_append.mp h with h12 | h
    rcases List.mem_append.mp h12 with h | h
    · obtain ⟨j, _, hc⟩ := mem_revertPass h
      rcases hc with h' | h' | ⟨h', hA⟩
      · subst h'
        simp only [Event.slotOf, Option.some_inj] at hslot
        subst hslot
        exact Or.inl rfl
      · subst h'
        simp only [Event.slotOf, Option.some_inj] at hslot
        subst hslot
        exact Or.inr rfl
      · subst h'
        simp only [Event.slotOf, Option.some_inj] at hslot
        subst hslot
        rw [hA] at hInact
        exact absurd hInact (by simp)
    · obtain ⟨j, _, hc⟩ := mem_closePass (slotRange_nodup devMax) h
      rcases hc with h' | h' | ⟨h' | h', hA⟩
      · subst h'
        simp only [Event.slotOf, Option.some_inj] at hslot
        subst hslot
        exact Or.inl rfl
      · subst h'
        simp only [Event.slotOf, Option.some_inj] at hslot
        subst hslot
        exact Or.inr rfl
      · subst h'
        simp only [Event.slotOf, Option.some_inj] at hslot
        subst hslot
        rw [hA] at hInact
        exact absurd hInact (by simp)
      · subst h'
        simp only [Event.slotOf, Option.some_inj] at hslot
        subst hslot
        rw [hA] at hInact
        exact absurd hInact (by simp)
    · simp only [List.mem_cons, List.mem_singleton, List.not_mem_nil, or_false] at h
      rcases h with h' | h' | h'
      · subst h'
        simp [Event.slotOf] at hslot
      · subst h'
        simp only [Event.slotOf, Option.some_inj] at hslot
        omega
      · subst h'
        simp [Event.slotOf] at hslot
  · exact closePass_snd_inactive (slotRange_nodup devMax) hInact

/-- Witness for C7 at devMax = 5, slot 3 EMPTY in the sample table. -/
theorem quit_empty_slot_noop_witness :
    quitFinal 5 sampleSt 3 = sampleSt 3 :=
  (quit_empty_slot_noop 5 sampleSt 3 (by decide) (by decide) (by decide)).2

/-! ## C9: arithmetic of timespec_add -/

/-- C9: timespec_add preserves the represented instant exactly (over
unbounded integers, i.e. assuming no intermediate overflow): the new
value of tv_sec * 10^9 + tv_nsec equals the old one plus the added
nanoseconds.  If the input was normalized (0 <= tv_nsec < 10^9) and the
increment is nonnegative, the result is normalized again; for negative
increments the resulting tv_nsec can be negative (witnessed at t = (0,0),
n = -1). -/
theorem timespec_add_exact (t : Timespec) (n : Int) :
    ((timespec_add t n).tv_sec * 1000000000 + (timespec_add t n).tv_nsec
      = t.tv_sec * 1000000000 + t.tv_nsec + n) ∧
    (0 ≤ t.tv_nsec → t.tv_nsec < 1000000000 → 0 ≤ n →
      0 ≤ (timespec_add t n).tv_nsec ∧ (timespec_add t n).tv_nsec < 1000000000) ∧
    (∃ t2 : Timespec, ∃ n2 : Int, 0 ≤ t2.tv_nsec ∧ t2.tv_nsec < 1000000000 ∧
      n2 < 0 ∧ (timespec_add t2 n2).tv_nsec < 0) := by
  refine ⟨?_, ?_, ⟨⟨0, 0⟩, -1, by decide, by decide, by decide, by decide⟩⟩
  · show (t.tv_sec + (n + t.tv_nsec).tdiv 1000000000) * 1000000000
      + (n + t.tv_nsec).tmod 1000000000 = t.tv_sec * 1000000000 + t.tv_nsec + n
    have h := Int.tdiv_add_tmod (n + t.tv_nsec) 1000000000
    linarith
  · intro h1 h2 h3
    constructor
    · exact Int.tmod_nonneg 1000000000 (by linarith)
    · exact Int.tmod_lt_of_pos (n + t.tv_nsec) (by norm_num)

/-- Witness for C9 at t = (1, 7), n = 3. -/
theorem timespec_add_exact_witness :
    0 ≤ (timespec_add ⟨1, 7⟩ 3).tv_nsec ∧ (timespec_add ⟨1, 7⟩ 3).tv_nsec < 1000000000 :=
  (timespec_add_exact ⟨1, 7⟩ 3).2.1 (by decide) (by decide) (by decide)

/-! ## Signal handling (sighandler, exithandler, ignore_signal;
main.c lines 68-117) -/

/-- The three monitored termination signals. -/
inductive TermSig
  | sigterm
  | sigint
  | sigquit
deriving DecidableEq, Repr

/-- Which handler is currently installed for a termination signal.
`viaChannel` is `sighandler` (writes the signal number into the
socketpair; the ordinary-context reader in usb.c, outside src/, then
invokes `exithandler`); `warnIgnore` is `ignore_signal` (prints the
already-shutting-down warning and returns). -/
inductive HandlerKind
  | viaChannel
  | warnIgnore
deriving DecidableEq, Repr

/-- State of the signal machinery: the installed handler for each
termination signal, the number of completed shutdown (quit) runs, and
the number of already-shutting-down warnings printed. -/
structure SigState where
  handler : TermSig → HandlerKind
  shutdownRuns : Nat
  warnings : Nat

/-- Steps taken by `exithandler` (main.c lines 95-103), in program
order: swap all three handlers to `ignore_signal`, print the caught
signal, run quit, exit(0). -/
inductive ExitStep
  | installIgnore (s : TermSig)
  | printCaught
  | runQuit
  | exitZero
deriving DecidableEq, Repr

/-- The ordered step list of `exithandler`. -/
def exithandlerSteps : List ExitStep :=
  [ExitStep.installIgnore TermSig.sigterm,
   ExitStep.installIgnore TermSig.sigint,
   ExitStep.installIgnore TermSig.sigquit,
   ExitStep.printCaught, ExitStep.runQuit, ExitStep.exitZero]

/-- The argument of the exit call at the end of exithandler: `exit(0)`. -/
def exithandlerExitCode : Int := 0

/-- Delivery of one termination signal to the process.  Modelled from
the spec for the part outside src/: the socketpair reader runs in
ordinary context and invokes `exithandler` exactly when the installed
handler is still `sighandler`; `exithandler` swaps all three handlers to
`ignore_signal` and runs the shutdown sequence once, while
`ignore_signal` only prints a warning and returns. -/
def deliverSig (s : SigState) (t : TermSig) : SigState :=
  match s.handler t with
  | HandlerKind.viaChannel =>
      { handler := fun _ => HandlerKind.warnIgnore
        shutdownRuns := s.shutdownRuns + 1
        warnings := s.warnings }
  | HandlerKind.warnIgnore =>
      { s with warnings := s.warnings + 1 }

/-- Signal state right after main installs `sighandler` for all three
termination signals (main.c lines 289-293, socketpair succeeded). -/
def initSigState : SigState :=
  { handler := fun _ => HandlerKind.viaChannel, shutdownRuns := 0, warnings := 0 }

/-- Deliver a sequence of termination signals in order. -/
def deliverAll (s : SigState) (l : List TermSig) : SigState :=
  l.foldl deliverSig s

lemma deliverAll_cons (s : SigState) (t : TermSig) (rest : List TermSig) :
    deliverAll s (t :: rest) = deliverAll (deliverSig s t) rest := rfl

lemma deliverAll_ignore :
    ∀ (l : List TermSig) (s : SigState),
      (∀ t, s.handler t = HandlerKind.warnIgnore) →
      (deliverAll s l).shutdownRuns = s.shutdownRuns ∧
      (deliverAll s l).warnings = s.warnings + l.length ∧
      (∀ t, (deliverAll s l).handler t = HandlerKind.warnIgnore) := by
  intro l
  induction l with
  | nil => intro s hs; exact ⟨rfl, rfl, hs⟩
  | cons t rest ih =>
    intro s hs
    have hstep : deliverSig s t = { s with warnings := s.warnings + 1 } := by
      simp [deliverSig, hs t]
    rw [deliverAll_cons, hstep]
    obtain ⟨h1, h2, h3⟩ := ih { s with warnings := s.warnings + 1 } (fun t2 => hs t2)
    refine ⟨h1, ?_, h3⟩
    rw [h2]
    simp only [List.length_cons]
    omega

lemma exithandlerSteps_runQuit_pos :
    ∀ p : Nat, exithandlerSteps[p]? = some ExitStep.runQuit → p = 4 := by
  intro p hp
  have hlt : p < exithandlerSteps.length := (List.getElem?_eq_some.mp hp).1
  have h6 : p < 6 := by simpa [exithandlerSteps] using hlt
  interval_cases p <;> first | rfl | exact absurd hp (by decide)

lemma exithandlerSteps_exitZero_pos :
    ∀ p : Nat, exithandlerSteps[p]? = some ExitStep.exitZero → p = 5 := by
  intro p hp
  have hlt : p < exithandlerSteps.length := (List.getElem?_eq_some.mp hp).1
  have h6 : p < 6 := by simpa [exithandlerSteps] using hlt
  interval_cases p <;> first | rfl | exact absurd hp (by decide)

/-- C4: for any nonempty sequence of termination signals, exactly one
shutdown run occurs: the first signal triggers exithandler, which leaves
every handler at ignore_signal, and each of the later signals only adds
an already-shutting-down warning.  Inside exithandler the swap of all
three handlers precedes the run of quit. -/
theorem termination_signals_single_shutdown (l : List TermSig) (h : l ≠ []) :
    (deliverAll initSigState l).shutdownRuns = 1 ∧
    (deliverAll initSigState l).warnings = l.length - 1 ∧
    (∀ t, (deliverAll initSigState l).handler t = HandlerKind.warnIgnore) ∧
    (∀ t, ∃ q : Nat, exithandlerSteps[q]? = some (ExitStep.installIgnore t) ∧
      ∀ p : Nat, exithandlerSteps[p]? = some ExitStep.runQuit → q < p) := by
  obtain ⟨t, rest, rfl⟩ := List.exists_cons_of_ne_nil h
  have hfirst : deliverSig initSigState t
      = { handler := fun _ => HandlerKind.warnIgnore, shutdownRuns := 1, warnings := 0 } := by
    simp [deliverSig, initSigState]
  rw [deliverAll_cons, hfirst]
  obtain ⟨h1, h2, h3⟩ := deliverAll_ignore rest
    { handler := fun _ => HandlerKind.warnIgnore, shutdownRuns := 1, warnings := 0 }
    (fun _ => rfl)
  refine ⟨h1, ?_, h3, ?_⟩
  · rw [h2]
    simp
  · intro t2
    cases t2 with
    | sigterm =>
      refine ⟨0, by decide, ?_⟩
      intro p hp
      rw [exithandlerSteps_runQuit_pos p hp]
      omega
    | sigint =>
      refine ⟨1, by decide, ?_⟩
      intro p hp
      rw [exithandlerSteps_runQuit_pos p hp]
      omega
    | sigquit =>
      refine ⟨2, by decide, ?_⟩
      intro p hp
      rw [exithandlerSteps_runQuit_pos p hp]
      omega

/-- Witness for C4: two interrupts in quick succession give exactly one
shutdown run and one warning. -/
theorem termination_signals_single_shutdown_witness :
    (deliverAll initSigState [TermSig.sigint, TermSig.sigint]).shutdownRuns = 1 ∧
    (deliverAll initSigState [TermSig.sigint, TermSig.sigint]).warnings = 1 :=
  ⟨(termination_signals_single_shutdown [TermSig.sigint, TermSig.sigint] (by simp)).1,
   (termination_signals_single_shutdown [TermSig.sigint, TermSig.sigint] (by simp)).2.1⟩

/-! ## Startup and shutdown paths of main (main.c lines 140-316) -/

/-- Configuration of one run of main, covering the branch points the
claims depend on: whether another daemon instance is already running
(is_pid_running), whether the socketpair call succeeds, whether
init_cond_monotonic fails, and the value returned by usbmain.
Command-line parsing (help/version/search early returns, the uid check)
happens before any of this state exists and is outside the modelled
core. -/
structure MainConfig where
  alreadyRunning : Bool
  socketpairOk : Bool
  monotonicInitFails : Bool
  usbResult : Int
deriving DecidableEq, Repr

/-- Observable startup and shutdown events of main, in the order the
corresponding statements appear in main.c. -/
inductive MainEvent
  | printPidFatal
  | createRootNode
  | installSigHandlers
  | warnNoSigHandlers
  | installNullHandler
  | printClockFatal
  | runUsbMain
  | runQuit
deriving DecidableEq, Repr

/-- Result of a run of main: its events in program order and the exit
code of the process. -/
structure MainOutcome where
  events : List MainEvent
  exitCode : Int
deriving DecidableEq, Repr

/-- Embedding of main (lines 188-316): the pid check returns 1 before
any device state is touched; otherwise the root controller node is
created (mkdevpath, line 285), the termination-signal handlers are
installed when socketpair succeeds and a warning is printed instead when
it fails (lines 288-294), the SIGUSR2 null handler is installed, then
init_cond_monotonic failure exits with code 1 (lines 307-310); in the
remaining case usbmain runs, quit follows it, and main returns usbmain's
result (lines 312-315). -/
def mainRun (cfg : MainConfig) : MainOutcome :=
  if cfg.alreadyRunning then
    { events := [MainEvent.printPidFatal], exitCode := 1 }
  else
    let sigEvents := if cfg.socketpairOk then [MainEvent.installSigHandlers]
      else [MainEvent.warnNoSigHandlers]
    let pre := MainEvent.createRootNode :: (sigEvents ++ [MainEvent.installNullHandler])
    if cfg.monotonicInitFails then
      { events := pre ++ [MainEvent.printClockFatal], exitCode := 1 }
    else
      { events := pre ++ [MainEvent.runUsbMain, MainEvent.runQuit],
        exitCode := cfg.usbResult }

/-- Counterexample to C5 as stated: when init_cond_monotonic fails, the
fatal startup exit is taken after mkdevpath has already created the root
controller's virtual node, so a virtual device node does exist at that
fatal startup exit. -/
theorem startup_fatal_before_node_counterexample :
    (mainRun ⟨false, true, true, 0⟩).exitCode = 1 ∧
    (mainRun ⟨false, true, true, 0⟩).events
      = [MainEvent.createRootNode, MainEvent.installSigHandlers,
         MainEvent.installNullHandler, MainEvent.printClockFatal] ∧
    MainEvent.createRootNode ∈ (mainRun ⟨false, true, true, 0⟩).events ∧
    MainEvent.runUsbMain ∉ (mainRun ⟨false, true, true, 0⟩).events := by
  decide

/-- C5 (amended): the already-running failure exits with code 1 before
any device state exists (no node is created); the monotonic-clock
failure also exits with code 1 before the USB subsystem starts and
without any teardown, but it is taken after the root controller's
virtual node has been created. -/
theorem startup_fatal_behaviour (cfg : MainConfig) :
    (cfg.alreadyRunning = true →
      (mainRun cfg).events = [MainEvent.printPidFatal] ∧
      (mainRun cfg).exitCode = 1 ∧
      MainEvent.createRootNode ∉ (mainRun cfg).events) ∧
    (cfg.alreadyRunning = false → cfg.monotonicInitFails = true →
      (mainRun cfg).exitCode = 1 ∧
      MainEvent.runUsbMain ∉ (mainRun cfg).events ∧
      MainEvent.runQuit ∉ (mainRun cfg).events ∧
      (mainRun cfg).events[0]? = some MainEvent.createRootNode) := by
  obtain ⟨ar, sp, mf, ur⟩ := cfg
  constructor
  · intro h
    subst h
    refine ⟨rfl, rfl, ?_⟩
    simp [mainRun]
  · intro h1 h2
    subst h1
    subst h2
    cases sp <;> refine ⟨rfl, ?_, ?_, rfl⟩ <;> simp [mainRun]

/-- Witness for C5 (amended) at the already-running configuration and
the clock-failure configuration. -/
theorem startup_fatal_behaviour_witness :
    (mainRun ⟨true, true, false, 0⟩).events = [MainEvent.printPidFatal] ∧
    (mainRun ⟨false, true, true, 0⟩).events[0]? = some MainEvent.createRootNode :=
  ⟨((startup_fatal_behaviour ⟨true, true, false, 0⟩).1 rfl).1,
   ((startup_fatal_behaviour ⟨false, true, true, 0⟩).2 rfl rfl).2.2.2⟩

/-- C6: after the full shutdown sequence runs, the process exit code is
the USB subsystem's own result: on the normal path main returns exactly
usbmain's value after running quit, and on the signal-triggered path
exithandler exits with 0 after running quit (the clean-exit code of an
orderly shutdown), with quit preceding the exit call. -/
theorem exit_code_from_usb_result (cfg : MainConfig)
    (h1 : cfg.alreadyRunning = false) (h2 : cfg.monotonicInitFails = false) :
    (mainRun cfg).exitCode = cfg.usbResult ∧
    MainEvent.runQuit ∈ (mainRun cfg).events ∧
    exithandlerExitCode = 0 ∧
    (∀ p : Nat, exithandlerSteps[p]? = some ExitStep.exitZero →
      ∀ q : Nat, exithandlerSteps[q]? = some ExitStep.runQuit → q < p) := by
  obtain ⟨ar, sp, mf, ur⟩ := cfg
  subst h1
  subst h2
  refine ⟨?_, ?_, rfl, ?_⟩
  · cases sp <;> rfl
  · cases sp <;> simp [mainRun]
  · intro p hp q hq
    rw [exithandlerSteps_exitZero_pos p hp, exithandlerSteps_runQuit_pos q hq]
    omega

/-- Witness for C6 at a run whose usbmain result is 7. -/
theorem exit_code_from_usb_result_witness :
    (mainRun ⟨false, true, false, 7⟩).exitCode = 7 :=
  (exit_code_from_usb_result ⟨false, true, false, 7⟩ rfl rfl).1

/-- C8: if the socketpair cannot be created, no termination-signal
handler is installed and a warning is printed, startup continues
non-fatally, and the shutdown sequence still runs after usbmain
returns, with the exit code still propagating usbmain's result. -/
theorem socketpair_failure_degrades_gracefully (cfg : MainConfig)
    (h1 : cfg.alreadyRunning = false) (h2 : cfg.socketpairOk = false)
    (h3 : cfg.monotonicInitFails = false) :
    MainEvent.installSigHandlers ∉ (mainRun cfg).events ∧
    MainEvent.warnNoSigHandlers ∈ (mainRun cfg).events ∧
    MainEvent.runUsbMain ∈ (mainRun cfg).events ∧
    MainEvent.runQuit ∈ (mainRun cfg).events ∧
    (mainRun cfg).exitCode = cfg.usbResult ∧
    (∀ p q : Nat, (mainRun cfg).events[p]? = some MainEvent.runUsbMain →
      (mainRun cfg).events[q]? = some MainEvent.runQuit → p < q) := by
  obtain ⟨ar, sp, mf, ur⟩ := cfg
  subst h1
  subst h2
  subst h3
  refine ⟨by simp [mainRun], by simp [mainRun], by simp [mainRun], by simp [mainRun],
    rfl, ?_⟩
  intro p q hp hq
  have hp5 : p < 5 := by
    have := (List.getElem?_eq_some.mp hp).1
    simpa [mainRun] using this
  have hq5 : q < 5 := by
    have := (List.getElem?_eq_some.mp hq).1
    simpa [mainRun] using this
  have hp3 : p = 3 := by
    interval_cases p <;> first | rfl | exact absurd hp (by simp [mainRun])
  have hq4 : q = 4 := by
    interval_cases q <;> first | rfl | exact absurd hq (by simp [mainRun])
  omega

/-- Witness for C8 with usbmain returning 3. -/
theorem socketpair_failure_degrades_gracefully_witness :
    MainEvent.runQuit ∈ (mainRun ⟨false, false, false, 3⟩).events ∧
    (mainRun ⟨false, false, false, 3⟩).exitCode = 3 :=
  ⟨(socketpair_failure_degrades_gracefully ⟨false, false, false, 3⟩ rfl rfl rfl).2.2.2.1,
   (socketpair_failure_degrades_gracefully ⟨false, false, false, 3⟩ rfl rfl rfl).2.2.2.2.1⟩

/-! ## localecase (main.c lines 123-138) -/

/-- Modelled from the C library: `tolower` in the POSIX/C locale maps
the ASCII bytes of letters A-Z (65..90) to a-z (97..122) and is the
identity on every other byte. -/
def tolowerByte (c : Nat) : Nat := if 65 ≤ c ∧ c ≤ 90 then c + 32 else c

/-- The per-character transform applied by the loop body of localecase:
an underscore byte (95) becomes a hyphen (45), every other byte is
lowercased. -/
def transformChar (c : Nat) : Nat := if c = 95 then 45 else tolowerByte c

/-- Embedding of localecase as the ordered list of (offset, byte) stores
it performs, offsets relative to dst.  `dst` is the current write
offset, `ldst` the offset `dst + length` computed at entry; the source
is the list of its bytes before the terminating NUL.  Mirrors
`while((s = *src++)) { s = transform(s); *dst++ = s; if(dst == ldst){
dst--; break; } } *dst = 0;`. -/
def localecaseWrites (dst ldst : Nat) : List Nat → List (Nat × Nat)
  | [] => [(dst, 0)]
  | c :: rest =>
      let s := transformChar c
      if dst + 1 = ldst then [(dst, s), (dst, 0)]
      else (dst, s) :: localecaseWrites (dst + 1) ldst rest

/-- Apply one store to a byte buffer modelled as a function from offsets
to bytes. -/
def writeByte (b : Nat → Nat) (p : Nat × Nat) : Nat → Nat :=
  fun j => if j = p.1 then p.2 else b j

/-- Apply a list of stores in order. -/
def applyWrites (b : Nat → Nat) (ws : List (Nat × Nat)) : Nat → Nat :=
  ws.foldl writeByte b

/-- The buffer contents after `localecase(dst, length, src)` runs over a
buffer whose previous contents are b. -/
def localecase (length : Nat) (src : List Nat) (b : Nat → Nat) : Nat → Nat :=
  applyWrites b (localecaseWrites 0 length src)

lemma transformChar_ne_zero {c : Nat} (hc : c ≠ 0) : transformChar c ≠ 0 := by
  unfold transformChar tolowerByte
  split_ifs <;> omega

lemma localecaseWrites_lt :
    ∀ (src : List Nat) (dst ldst : Nat), dst < ldst →
      ∀ p ∈ localecaseWrites dst ldst src, p.1 < ldst := by
  intro src
  induction src with
  | nil =>
    intro dst ldst h p hp
    simp only [localecaseWrites, List.mem_singleton] at hp
    subst hp
    exact h
  | cons c rest ih =>
    intro dst ldst h p hp
    by_cases he : dst + 1 = ldst
    · simp only [localecaseWrites, he, if_true, List.mem_cons, List.mem_singleton,
        List.not_mem_nil, or_false] at hp
      rcases hp with h' | h' <;> subst h' <;> exact h
    · simp only [localecaseWrites, he, if_false, List.mem_cons] at hp
      rcases hp with h' | h'
      · subst h'
        exact h
      · exact ih (dst + 1) ldst (by omega) p h'

lemma applyWrites_cons (b : Nat → Nat) (p : Nat × Nat) (ws : List (Nat × Nat)) :
    applyWrites b (p :: ws) = applyWrites (writeByte b p) ws := rfl

lemma localecase_content :
    ∀ (src : List Nat) (dst ldst : Nat) (b : Nat → Nat) (j : Nat), dst < ldst →
      applyWrites b (localecaseWrites dst ldst src) j
        = if dst ≤ j ∧ j < dst + min src.length (ldst - dst - 1)
          then transformChar (src.getD (j - dst) 0)
          else if j = dst + min src.length (ldst - dst - 1) then 0
          else b j := by
  intro src
  induction src with
  | nil =>
    intro dst ldst b j h
    simp only [localecaseWrites, applyWrites, List.foldl_cons, List.foldl_nil,
      writeByte, List.length_nil, Nat.zero_min, Nat.add_zero]
    split_ifs <;> first | rfl | omega
  | cons c rest ih =>
    intro dst ldst b j h
    by_cases he : dst + 1 = ldst
    · have hm : min (c :: rest).length (ldst - dst - 1) = 0 := by
        simp only [List.length_cons]
        omega
      rw [hm]
      simp only [localecaseWrites, he, if_true, applyWrites, List.foldl_cons,
        List.foldl_nil, writeByte]
      split_ifs <;> first | rfl | omega
    · have h2 : dst + 1 < ldst := by omega
      have hunf : localecaseWrites dst ldst (c :: rest)
          = (dst, transformChar c) :: localecaseWrites (dst + 1) ldst rest := by
        simp [localecaseWrites, he]
      rw [hunf, applyWrites_cons, ih (dst + 1) ldst (writeByte b (dst, transformChar c)) j h2]
      have hm : min (c :: rest).length (ldst - dst - 1)
          = min rest.length (ldst - dst - 2) + 1 := by
        simp only [List.length_cons]
        omega
      rw [hm]
      have hsub : ldst - (dst + 1) - 1 = ldst - dst - 2 := by omega
      rw [hsub]
      simp only [writeByte]
      by_cases hj1 : dst + 1 ≤ j ∧ j < dst + 1 + min rest.length (ldst - dst - 2)
      · rw [if_pos hj1, if_pos (by omega)]
        have hidx : j - dst = (j - (dst + 1)) + 1 := by omega
        rw [hidx, List.getD_cons_succ]
      · rw [if_neg hj1]
        by_cases hj2 : j = dst + 1 + min rest.length (ldst - dst - 2)
        · rw [if_pos hj2, if_neg (by omega), if_pos (by omega)]
        · rw [if_neg hj2]
          by_cases hj3 : j = dst
          · rw [if_pos hj3, if_pos (by omega)]
            have hidx : j - dst = 0 := by omega
            rw [hidx, List.getD_cons_zero]
          · rw [if_neg hj3, if_neg (by omega), if_neg (by omega)]

lemma localecaseWrites_overflow :
    ∀ (src : List Nat) (dst ldst : Nat), ldst ≤ dst →
      (localecaseWrites dst ldst src).length = src.length + 1 := by
  intro src
  induction src with
  | nil =>
    intro dst ldst _
    rfl
  | cons c rest ih =>
    intro dst ldst hle
    have he : ¬ dst + 1 = ldst := by omega
    simp only [localecaseWrites, he, if_false, List.length_cons]
    rw [ih (dst + 1) ldst (by omega)]

/-- Counterexample to C10's final sentence as stated: with length = 0
the check `dst == ldst` never fires (dst has already moved one past
ldst), so localecase does not write just one byte past the buffer; on
the two-byte source "ab" it performs three stores, at offsets 0, 1 and
2 - the whole transformed string plus the NUL terminator. -/
theorem localecase_zero_length_counterexample :
    localecaseWrites 0 0 [97, 98] = [(0, 97), (1, 98), (2, 0)] ∧
    ¬ (localecaseWrites 0 0 [97, 98]).length = 1 ∧
    ¬ (∀ p ∈ localecaseWrites 0 0 [97, 98], p.1 = 0) := by
  decide

/-- C10 (amended): for length >= 1 and a NUL-free source, localecase
stores only at offsets below length and leaves the buffer
NUL-terminated there: with m = min (strlen src) (length - 1), the first
m bytes are the transformed source characters (underscore to hyphen,
everything else lowercased), all nonzero, byte m is the NUL terminator,
and every byte past m is untouched; when the source fits (strlen src <=
length - 1) it is transformed in full.  For length = 0 the function
instead performs strlen src + 1 stores - the whole transformed source
plus the NUL - past the buffer, so length >= 1 is a required
precondition. -/
theorem localecase_spec (length : Nat) (src : List Nat) (b : Nat → Nat)
    (hsrc : ∀ c ∈ src, c ≠ 0) :
    (1 ≤ length →
      (∀ p ∈ localecaseWrites 0 length src, p.1 < length) ∧
      (localecase length src b (min src.length (length - 1)) = 0 ∧
        min src.length (length - 1) < length) ∧
      (∀ j, j < min src.length (length - 1) →
        localecase length src b j = transformChar (src.getD j 0) ∧
        localecase length src b j ≠ 0) ∧
      (∀ j, min src.length (length - 1) < j → localecase length src b j = b j) ∧
      (src.length ≤ length - 1 → min src.length (length - 1) = src.length)) ∧
    (length = 0 → (localecaseWrites 0 0 src).length = src.length + 1) := by
  constructor
  · intro hlen
    have hpos : 0 < length := hlen
    have hcontent := fun j => localecase_content src 0 length b j hpos
    have hmin : min src.length (length - 0 - 1) = min src.length (length - 1) := by
      omega
    constructor
    · exact localecaseWrites_lt src 0 length hpos
    constructor
    · constructor
      · rw [localecase, hcontent, hmin]
        rw [if_neg (by omega), if_pos (by omega)]
      · omega
    constructor
    · intro j hj
      have hval : localecase length src b j = transformChar (src.getD j 0) := by
        rw [localecase, hcontent, hmin, if_pos (by omega)]
        have h0 : j - 0 = j := by omega
        rw [h0]
      refine ⟨hval, ?_⟩
      rw [hval]
      have hjlen : j < src.length := by omega
      have hmem : src.getD j 0 ∈ src := by
        rw [List.getD_eq_getElem src 0 hjlen]
        exact List.getElem_mem hjlen
      exact transformChar_ne_zero (hsrc _ hmem)
    constructor
    · intro j hj
      rw [localecase, hcontent, hmin, if_neg (by omega), if_neg (by omega)]
    · intro hfit
      omega
  · intro h0
    subst h0
    exact localecaseWrites_overflow src 0 0 (by omega)

/-- Witness for C10 (amended) at length = 4 on the source "HI_": the
buffer holds the transformed string "hi-" followed by the NUL
terminator, and the byte after it is untouched. -/
theorem localecase_spec_witness :
    localecase 4 [72, 73, 95] (fun _ => 7) 3 = 0 ∧
    localecase 4 [72, 73, 95] (fun _ => 7) 0 = 104 := by
  have h := (localecase_spec 4 [72, 73, 95] (fun _ => 7) (by decide)).1 (by omega)
  constructor
  · exact h.2.1.1
  · exact ((h.2.2.1 0 (by norm_num)).1).trans (by decide)

end CkbNext
